import Mathlib

/-!
Verification of the KahootQuizClone real-time quiz engine (Go backend).

The Go sources are shallowly embedded as follows:

* Pure data (`entity.Quiz`, `Player`, `Game`, the packet structs) become Lean
  structures.  Go `int` is modelled as `Int` (64-bit overflow is far outside
  the magnitudes any claim touches), `uuid.UUID` and `*websocket.Conn` become
  opaque `Nat` handles, and MongoDB object ids become `String`s.
* Every state-mutating method of `Game` (`game.go`) becomes a function
  `Game → ... → Game × List (Nat × Packet)`; the second component is the list
  of `(connection, packet)` pairs handed to the transport, in send order.
  A Go runtime panic (out-of-range slice index) is modelled by returning
  `none` from an `Option`-valued function.
* The per-second timer goroutine is modelled by `GEvent.timerTick` events:
  each loop iteration checks `Ended` and otherwise runs `Tick`, exactly as in
  `Game.Start`.
* `sort.Slice` (used by `getLeaderboard`) is an external library call whose
  documentation promises only that the slice ends up ordered by the
  comparator and explicitly does *not* guarantee stability.  `sortSliceOutcome`
  captures that contract; the executable model uses the stable insertion sort
  (which is also the algorithm Go itself runs for slices below the pdqsort
  cutoff), and is proved to satisfy the contract.
* `encoding/json` marshalling of the flat packet structs is modelled by an
  injective payload serialization `marshalPayload` with a strict parser
  `unmarshalPayload`; like the library, parsing accepts exactly the
  serializations and fails on anything else.
-/

/-- `entity.QuizChoice`. -/
structure QuizChoice where
  id : String
  name : String
  correct : Bool
deriving DecidableEq, Repr

/-- `entity.QuizQuestion`; `Time` is the per-question budget in seconds. -/
structure QuizQuestion where
  id : String
  name : String
  time : Int
  choices : List QuizChoice
deriving DecidableEq, Repr

/-- `entity.Quiz`. -/
structure Quiz where
  id : String
  name : String
  questions : List QuizQuestion
deriving DecidableEq, Repr

/-- `service.GameState` (Go iota order: Lobby, Play, Intermission, Reveal, End). -/
inductive GameState where
  | lobbyState
  | playState
  | intermissionState
  | revealState
  | endState
deriving DecidableEq, Repr

/-- The wire tag `ChangeGameStatePacket` carries (the Go iota value). -/
def GameState.toTag : GameState → Nat
  | .lobbyState => 0
  | .playState => 1
  | .intermissionState => 2
  | .revealState => 3
  | .endState => 4

/-- `service.Player`; `connection` is the opaque websocket handle. -/
structure Player where
  id : Nat
  name : String
  connection : Nat
  points : Int
  lastAwardedPoints : Int
  answered : Bool
deriving DecidableEq, Repr

/-- `service.LeaderboardEntry`. -/
structure LeaderboardEntry where
  name : String
  points : Int
deriving DecidableEq, Repr

/-- `service.Game` (the `netService` back pointer is replaced by returning the
packets each operation sends). -/
structure Game where
  gameId : Nat
  quiz : Quiz
  currentQuestion : Int
  code : String
  state : GameState
  ended : Bool
  time : Int
  players : List Player
  host : Nat
deriving DecidableEq, Repr

/-- The packet catalog of `net.go` (all structs that cross the wire). -/
inductive Packet where
  | connect (code name : String)
  | hostGame (quizId : String)
  | questionShow (question : QuizQuestion)
  | changeGameState (state : GameState)
  | playerJoin (player : Player)
  | playerDisconnect (playerId : Nat)
  | startGame
  | tick (t : Int)
  | questionAnswer (question : Int)
  | playerReveal (points : Int)
  | leaderboard (points : List LeaderboardEntry)
deriving DecidableEq, Repr

/-- `NetService.SendPacket` at the game level: one `(connection, packet)` pair
handed to the transport (transport errors are outside the model). -/
def sendPacket (conn : Nat) (p : Packet) : List (Nat × Packet) :=
  [(conn, p)]

/-- `Game.BroadcastPacket`: every player in roster order, then optionally the host. -/
def broadcastPacket (g : Game) (p : Packet) (includeHost : Bool) : List (Nat × Packet) :=
  (g.players.map fun pl => (pl.connection, p)) ++
    (if includeHost then [(g.host, p)] else [])

/-- `Game.ChangeState`: set the state, broadcast it to players and host. -/
def changeState (g : Game) (s : GameState) : Game × List (Nat × Packet) :=
  let g' := { g with state := s }
  (g', broadcastPacket g' (Packet.changeGameState s) true)

/-- `Game.ResetPlayerAnswerStates`. -/
def resetPlayerAnswerStates (g : Game) : Game :=
  { g with players := g.players.map fun p => { p with answered := false } }

/-- `Game.End`: set `Ended`, move to `EndState`. -/
def endGame (g : Game) : Game × List (Nat × Packet) :=
  changeState { g with ended := true } GameState.endState

/-- `Game.getCurrentQuestion` = `g.Quiz.Questions[g.CurrentQuestion]`; `none`
models the Go index-out-of-range panic. -/
def getCurrentQuestion (g : Game) : Option QuizQuestion :=
  if g.currentQuestion < 0 then none
  else g.quiz.questions[g.currentQuestion.toNat]?

/-- `Game.getAnsweredPlayers`. -/
def getAnsweredPlayers (g : Game) : List Player :=
  g.players.filter (·.answered)

/-- `Game.isCorrectChoice`: panics (`none`) if the current question index is
out of range, otherwise bounds-checks the choice index and reads `Correct`. -/
def isCorrectChoice (g : Game) (choiceIndex : Int) : Option Bool :=
  (getCurrentQuestion g).map fun q =>
    if h : choiceIndex < 0 ∨ (q.choices.length : Int) ≤ choiceIndex then false
    else (q.choices.get ⟨choiceIndex.toNat, by omega⟩).correct

/-- `Game.getPointsReward`.  `math.Min(4, float64(answered))` is exact on these
small integers; Go's untyped constant division `1000 / 60` truncates to `16`,
which Lean's `Int` division reproduces. -/
def getPointsReward (g : Game) : Int :=
  let answered : Int := (getAnsweredPlayers g).length
  let orderReward : Int := 5000 - 1000 * min 4 answered
  let timeReward : Int := g.time * (1000 / 60)
  orderReward + timeReward

/-- `Game.NextQuestion`: advance the index; end the game if the quiz is
exhausted, otherwise reset answers, enter Play, load the question's time and
show the question to the host. -/
def nextQuestion (g : Game) : Option (Game × List (Nat × Packet)) :=
  let g1 := { g with currentQuestion := g.currentQuestion + 1 }
  if (g1.quiz.questions.length : Int) ≤ g1.currentQuestion then
    some (endGame g1)
  else
    let g2 := resetPlayerAnswerStates g1
    let (g3, s1) := changeState g2 GameState.playState
    match getCurrentQuestion g3 with
    | none => none
    | some q =>
      let g4 := { g3 with time := q.time }
      some (g4, s1 ++ sendPacket g4.host (Packet.questionShow q))

/-- `Game.Reveal`: 5-second window, zero the last award of non-answerers,
send each player their own award, enter Reveal. -/
def reveal (g : Game) : Game × List (Nat × Packet) :=
  let g1 := { g with time := 5 }
  let players' := g1.players.map fun p =>
    if p.answered then p else { p with lastAwardedPoints := 0 }
  let revealSends := players'.map fun p =>
    (p.connection, Packet.playerReveal p.lastAwardedPoints)
  let g2 := { g1 with players := players' }
  let (g3, s2) := changeState g2 GameState.revealState
  (g3, revealSends ++ s2)

/-- The comparator `getLeaderboard` hands to `sort.Slice`:
`g.Players[i].Points > g.Players[j].Points`, i.e. descending points. -/
def sortedByPointsDesc (l : List Player) : Prop :=
  l.Pairwise fun a b => b.points ≤ a.points

/-- The contract of Go's `sort.Slice`: the slice is reordered to some
permutation that is sorted by the comparator; the relative order of equal
elements is NOT guaranteed ("The sort is not guaranteed to be stable"). -/
def sortSliceOutcome (input output : List Player) : Prop :=
  output.Perm input ∧ sortedByPointsDesc output

/-- Executable model of the `sort.Slice` call: the stable insertion sort by
descending points (the algorithm Go itself runs below the pdqsort cutoff of
12 elements); proved below to satisfy `sortSliceOutcome`. -/
def sortPlayers (l : List Player) : List Player :=
  l.insertionSort fun a b => b.points ≤ a.points

/-- The entry list built from the sorted roster: top `min 3 n` players. -/
def leaderboardOf (sorted : List Player) : List LeaderboardEntry :=
  (sorted.take (min 3 sorted.length)).map fun p => { name := p.name, points := p.points }

/-- `Game.getLeaderboard`: `sort.Slice` sorts `g.Players` IN PLACE, then the
top `int(math.Min(3, len))` entries are collected.  The returned game carries
the reordered roster. -/
def getLeaderboard (g : Game) : Game × List LeaderboardEntry :=
  let sorted := sortPlayers g.players
  ({ g with players := sorted }, leaderboardOf sorted)

/-- `Game.Intermission`: 30-second window, enter Intermission, send the
leaderboard to the host (sorting the roster in place). -/
def intermission (g : Game) : Game × List (Nat × Packet) :=
  let g1 := { g with time := 30 }
  let (g2, s1) := changeState g1 GameState.intermissionState
  let (g3, lb) := getLeaderboard g2
  (g3, s1 ++ sendPacket g3.host (Packet.leaderboard lb))

/-- `Game.Tick`: decrement the clock, send the Tick to the host, and on zero
fire the transition of the current state. -/
def tick (g : Game) : Option (Game × List (Nat × Packet)) :=
  let g1 := { g with time := g.time - 1 }
  let s0 := sendPacket g1.host (Packet.tick g1.time)
  if g1.time = 0 then
    match g1.state with
    | GameState.playState =>
      let (g2, s) := reveal g1
      some (g2, s0 ++ s)
    | GameState.revealState =>
      let (g2, s) := intermission g1
      some (g2, s0 ++ s)
    | GameState.intermissionState =>
      match nextQuestion g1 with
      | none => none
      | some (g2, s) => some (g2, s0 ++ s)
    | _ => some (g1, s0)
  else
    some (g1, s0)

/-- `Game.Start`: enter Play and advance to question 0 (the spawned timer
goroutine is modelled by `GEvent.timerTick` events). -/
def startGame (g : Game) : Option (Game × List (Nat × Packet)) :=
  let (g1, s1) := changeState g GameState.playState
  match nextQuestion g1 with
  | none => none
  | some (g2, s2) => some (g2, s1 ++ s2)

/-- `Game.StartOrSkip`. -/
def startOrSkip (g : Game) : Option (Game × List (Nat × Packet)) :=
  if g.state = GameState.lobbyState then startGame g else nextQuestion g

/-- `Game.OnPlayerAnswer` for the roster entry at index `i` (the Go code
receives a pointer into the roster).  `none` models the panic that
`isCorrectChoice` raises when the current question index is out of range. -/
def onPlayerAnswer (g : Game) (choice : Int) (i : Nat) : Option (Game × List (Nat × Packet)) :=
  match g.players[i]? with
  | none => none
  | some pl =>
    match isCorrectChoice g choice with
    | none => none
    | some correct =>
      let pl1 :=
        if correct then
          let reward := getPointsReward g
          { pl with lastAwardedPoints := reward, points := pl.points + reward }
        else
          { pl with lastAwardedPoints := 0 }
      let pl2 := { pl1 with answered := true }
      let g1 := { g with players := g.players.set i pl2 }
      if (getAnsweredPlayers g1).length = g1.players.length then
        some (reveal g1)
      else
        some (g1, [])

/-- `Game.OnPlayerJoin`; `pid` is the freshly generated player uuid. -/
def onPlayerJoin (g : Game) (name : String) (conn : Nat) (pid : Nat) :
    Game × List (Nat × Packet) :=
  let pl : Player :=
    { id := pid, name := name, connection := conn,
      points := 0, lastAwardedPoints := 0, answered := false }
  let g1 := { g with players := g.players ++ [pl] }
  (g1, sendPacket conn (Packet.changeGameState g1.state) ++
       sendPacket g1.host (Packet.playerJoin pl))

/-- `Game.OnPlayerDisconnect`: drop every roster entry with the same id,
notify the host. -/
def onPlayerDisconnect (g : Game) (pl : Player) : Game × List (Nat × Packet) :=
  let g1 := { g with players := g.players.filter fun p => p.id ≠ pl.id }
  (g1, sendPacket g1.host (Packet.playerDisconnect pl.id))

/-- `service.newGame`. -/
def newGame (quiz : Quiz) (host : Nat) (gid : Nat) (code : String) : Game :=
  { gameId := gid, quiz := quiz, code := code, players := [],
    state := GameState.lobbyState, currentQuestion := -1, time := 60,
    ended := false, host := host }

/-- The events that can reach one `Game`: a timer-goroutine iteration, a
host StartGame, a routed player answer, a join, a disconnect. -/
inductive GEvent where
  | timerTick
  | hostStartOrSkip
  | playerAnswer (i : Nat) (choice : Int)
  | playerJoin (name : String) (conn : Nat) (pid : Nat)
  | playerDisconnect (pl : Player)
deriving DecidableEq, Repr

/-- One serialized step on a `Game`.  A timer iteration first checks `Ended`
and exits (`Game.Start`'s goroutine), so an ended game ignores ticks. -/
def stepGame (g : Game) : GEvent → Option (Game × List (Nat × Packet))
  | GEvent.timerTick => if g.ended then some (g, []) else tick g
  | GEvent.hostStartOrSkip => startOrSkip g
  | GEvent.playerAnswer i choice => onPlayerAnswer g choice i
  | GEvent.playerJoin name conn pid => some (onPlayerJoin g name conn pid)
  | GEvent.playerDisconnect pl => some (onPlayerDisconnect g pl)

/-- Games reachable from `newGame` by serialized steps. -/
inductive Reachable : Game → Prop
  | init (quiz : Quiz) (host gid : Nat) (code : String) :
      Reachable (newGame quiz host gid code)
  | step {g g' : Game} {e : GEvent} {s : List (Nat × Packet)} :
      Reachable g → stepGame g e = some (g', s) → Reachable g'

/-- All packets emitted along an event trace; a panic (`none`) kills the
process, so nothing further is emitted. -/
def runTrace (g : Game) : List GEvent → List (Nat × Packet)
  | [] => []
  | e :: es =>
    match stepGame g e with
    | none => []
    | some (g', s) => s ++ runTrace g' es

/-- Iterate `stepGame` over a list of events, keeping only the final state. -/
def applyEvents (g : Game) (evs : List GEvent) : Option Game :=
  evs.foldlM (fun g e => (stepGame g e).map Prod.fst) g

/-! ## Packet codec (`net.go`)

Wire messages are byte lists (`List Nat`).  `encoding/json` on the flat packet
structs is modelled by the injective serialization `marshalPayload` together
with the strict parser `unmarshalPayload`: `unmarshal` accepts exactly the
strings `marshal` produces (like the library, trailing or malformed bytes are
a decode error). -/

/-- Serialization of a string field: length, then the character codes. -/
def encodeString (s : String) : List Nat :=
  s.length :: s.data.map Char.toNat

/-- Parse a string field; returns the remaining bytes. -/
def readString (bytes : List Nat) : Option (String × List Nat) :=
  match bytes with
  | [] => none
  | n :: rest =>
    if n ≤ rest.length then
      some (String.mk ((rest.take n).map Char.ofNat), rest.drop n)
    else none

/-- Serialization of an integer field: sign byte, then the magnitude. -/
def encodeInt (i : Int) : List Nat :=
  (if i < 0 then 1 else 0) :: [i.natAbs]

/-- Parse an integer field; returns the remaining bytes. -/
def readInt (bytes : List Nat) : Option (Int × List Nat) :=
  match bytes with
  | sgn :: mag :: rest => some (if sgn = 1 then -(mag : Int) else (mag : Int), rest)
  | _ => none

/-- Payload serialization of `entity.QuizQuestion` (used opaquely: only ever
produced for the host-bound `QuestionShowPacket`, never parsed). -/
def marshalQuestion (q : QuizQuestion) : List Nat :=
  encodeString q.id ++ encodeString q.name ++ encodeInt q.time ++
    q.choices.length :: (q.choices.flatMap fun c =>
      encodeString c.id ++ encodeString c.name ++ [if c.correct then 1 else 0])

/-- `json.Marshal` of each packet struct (fields carrying Go `json` tags). -/
def marshalPayload : Packet → List Nat
  | Packet.connect code name => encodeString code ++ encodeString name
  | Packet.hostGame quizId => encodeString quizId
  | Packet.questionShow q => marshalQuestion q
  | Packet.changeGameState s => [s.toTag]
  | Packet.playerJoin p => p.id :: encodeString p.name
  | Packet.playerDisconnect pid => [pid]
  | Packet.startGame => [123, 125]
  | Packet.tick t => encodeInt t
  | Packet.questionAnswer q => encodeInt q
  | Packet.playerReveal pts => encodeInt pts
  | Packet.leaderboard entries =>
      entries.length :: (entries.flatMap fun e => encodeString e.name ++ encodeInt e.points)

/-- The four packet kinds `NetService.packetIdToPacket` accepts. -/
inductive RecvKind where
  | connect
  | hostGame
  | startGame
  | questionAnswer
deriving DecidableEq, Repr

/-- `NetService.packetIdToPacket`: tag byte to receivable packet kind;
`none` for every other tag. -/
def packetIdToPacket (packetId : Nat) : Option RecvKind :=
  if packetId = 0 then some RecvKind.connect
  else if packetId = 1 then some RecvKind.hostGame
  else if packetId = 5 then some RecvKind.startGame
  else if packetId = 7 then some RecvKind.questionAnswer
  else none

/-- `json.Unmarshal` of the payload into the struct selected by the tag. -/
def unmarshalPayload (k : RecvKind) (data : List Nat) : Option Packet :=
  match k with
  | RecvKind.connect =>
    match readString data with
    | some (code, r1) =>
      match readString r1 with
      | some (name, r2) => if r2 = [] then some (Packet.connect code name) else none
      | none => none
    | none => none
  | RecvKind.hostGame =>
    match readString data with
    | some (quizId, r1) => if r1 = [] then some (Packet.hostGame quizId) else none
    | none => none
  | RecvKind.startGame =>
    if data = [123, 125] then some Packet.startGame else none
  | RecvKind.questionAnswer =>
    match readInt data with
    | some (q, r1) => if r1 = [] then some (Packet.questionAnswer q) else none
    | none => none

/-- `NetService.packetToPacketId`: the Go type switch over *emittable* packet
values.  `ConnectPacket`, `StartGamePacket` and `QuestionAnswerPacket` have no
case, so encoding them returns the "invalid packet type" error (`none`). -/
def packetToPacketId : Packet → Option Nat
  | Packet.questionShow _ => some 2
  | Packet.hostGame _ => some 1
  | Packet.changeGameState _ => some 3
  | Packet.playerJoin _ => some 4
  | Packet.tick _ => some 6
  | Packet.playerReveal _ => some 8
  | Packet.leaderboard _ => some 9
  | Packet.playerDisconnect _ => some 10
  | _ => none

/-- `NetService.PacketToBytes`: tag byte, then the marshalled payload. -/
def packetToBytes (p : Packet) : Option (List Nat) :=
  match packetToPacketId p with
  | none => none
  | some packetId => some (packetId :: marshalPayload p)

/-- The decode phase of `NetService.OnIncomingMessage` (lines 187-203):
messages under 2 bytes are dropped, the first byte selects the kind, the rest
must unmarshal as that kind's payload. -/
def decodeIncoming (msg : List Nat) : Option Packet :=
  if msg.length < 2 then none
  else
    match msg with
    | [] => none
    | packetId :: data =>
      match packetIdToPacket packetId with
      | none => none
      | some k => unmarshalPayload k data

/-! ## NetService routing (`net.go`) -/

/-- `service.NetService`: the quiz repository is modelled as an id-to-quiz
list (spec section 6 `fetchById`), `games` is the process-wide game list, and
`fresh` is a deterministic stand-in for the uuid / join-code generators. -/
structure NetService where
  quizzes : List (String × Quiz)
  games : List Game
  fresh : Nat
deriving DecidableEq, Repr

/-- `NetService.getGameByCode` as an index (first match by linear scan). -/
def getGameIdxByCode (games : List Game) (code : String) : Option Nat :=
  games.findIdx? fun g => g.code = code

/-- `NetService.getGameByHost` as an index (first match by linear scan). -/
def getGameIdxByHost (games : List Game) (host : Nat) : Option Nat :=
  games.findIdx? fun g => g.host = host

/-- `NetService.getGameByPlayer`: first game owning a player with this
connection, together with that player's roster index. -/
def findGamePlayer : List Game → Nat → Option (Nat × Nat)
  | [], _ => none
  | g :: gs, conn =>
    match g.players.findIdx? (fun p => p.connection = conn) with
    | some pi => some (0, pi)
    | none => (findGamePlayer gs conn).map fun r => (r.1 + 1, r.2)

/-- `NetService.OnIncomingMessage`: decode, then route.  Every decode failure
and every failed lookup is "drop the request, no response": the state comes
back unchanged with no packets.  `none` models a Go panic inside a handler. -/
def onIncomingMessage (ns : NetService) (con : Nat) (msg : List Nat) :
    Option (NetService × List (Nat × Packet)) :=
  match decodeIncoming msg with
  | none => some (ns, [])
  | some p =>
    match p with
    | Packet.connect code name =>
      match getGameIdxByCode ns.games code with
      | none => some (ns, [])
      | some gi =>
        match ns.games[gi]? with
        | none => some (ns, [])
        | some g =>
          let (g', s) := onPlayerJoin g name con ns.fresh
          some ({ ns with games := ns.games.set gi g', fresh := ns.fresh + 1 }, s)
    | Packet.hostGame quizId =>
      match ns.quizzes.find? (fun q => q.1 = quizId) with
      | none => some (ns, [])
      | some q =>
        let code := toString (100000 + ns.fresh % 900000)
        let g := newGame q.2 con ns.fresh code
        some ({ ns with games := ns.games ++ [g], fresh := ns.fresh + 1 },
          sendPacket con (Packet.hostGame code) ++
            sendPacket con (Packet.changeGameState g.state))
    | Packet.startGame =>
      match getGameIdxByHost ns.games con with
      | none => some (ns, [])
      | some gi =>
        match ns.games[gi]? with
        | none => some (ns, [])
        | some g =>
          match startOrSkip g with
          | none => none
          | some (g', s) => some ({ ns with games := ns.games.set gi g' }, s)
    | Packet.questionAnswer choice =>
      match findGamePlayer ns.games con with
      | none => some (ns, [])
      | some gp =>
        match ns.games[gp.1]? with
        | none => some (ns, [])
        | some g =>
          match onPlayerAnswer g choice gp.2 with
          | none => none
          | some (g', s) => some ({ ns with games := ns.games.set gp.1 g' }, s)
    | _ => some (ns, [])

/-! ## Concrete fixtures used by counterexamples and witnesses -/

/-- A fresh zero-score player `n` on connection `n + 10`. -/
def mkP (n : Nat) : Player :=
  { id := n, name := toString n, connection := n + 10,
    points := 0, lastAwardedPoints := 0, answered := false }

/-- A 60-second question whose first choice is correct. -/
def qOne : QuizQuestion :=
  { id := "q1", name := "Q", time := 60,
    choices := [{ id := "a", name := "A", correct := true },
                { id := "b", name := "B", correct := false }] }

/-- A one-question quiz. -/
def quizOne : Quiz := { id := "QZ", name := "quiz", questions := [qOne] }

/-- A quiz with no questions. -/
def quizEmpty : Quiz := { id := "QE", name := "empty", questions := [] }

/-- A question with a zero-second time budget (quiz data the core must
tolerate; the countdown then never hits 0 exactly and keeps falling). -/
def qZero : QuizQuestion :=
  { id := "q0", name := "Z", time := 0,
    choices := [{ id := "a", name := "A", correct := true }] }

/-- A quiz holding only the zero-time question. -/
def quizZero : Quiz := { id := "QO", name := "zero", questions := [qZero] }

/-- A mid-question Play state: question 0 of `quizOne` active, 30 of the 60
seconds remaining, six players, none answered yet. -/
def gPlay : Game :=
  { gameId := 0, quiz := quizOne, currentQuestion := 0, code := "123456",
    state := GameState.playState, ended := false, time := 30,
    players := [mkP 0, mkP 1, mkP 2, mkP 3, mkP 4, mkP 5], host := 100 }

/-- `gPlay` after all six players answer the correct choice, in roster order. -/
def gPlayAnswered : Option Game :=
  applyEvents gPlay
    [GEvent.playerAnswer 0 0, GEvent.playerAnswer 1 0, GEvent.playerAnswer 2 0,
     GEvent.playerAnswer 3 0, GEvent.playerAnswer 4 0, GEvent.playerAnswer 5 0]

/-- A lobby-state game (question index still -1) with one joined player. -/
def gLobby : Game :=
  { newGame quizOne 100 0 "222222" with players := [mkP 0] }

/-- Host starts the zero-time question with players `a`, `b`; `a` answers
correctly at once; then 260 timer ticks pass (the countdown reaches -260
because it skipped 0); events for the claim-10 counterexample. -/
def evsNegTime : List GEvent :=
  [GEvent.playerJoin "a" 1 10, GEvent.playerJoin "b" 2 11,
   GEvent.hostStartOrSkip, GEvent.playerAnswer 0 0] ++
    List.replicate 260 GEvent.timerTick

/-! ## C1 — scoring counterexample (claim's concrete award values) -/

/-- C1 counterexample: on a 60-second question answered correctly with 30
seconds remaining by the 1st..6th respondents, the code awards
5480, 4480, 3480, 2480, 1480, 1480 — not the 5500/4500/1500/1500 the claim
states: Go's untyped constant division `1000 / 60` truncates to 16, so the
time bonus is 30 × 16 = 480, not 500. -/
theorem claim1_counterexample :
    gPlayAnswered.map (fun g => g.players.map Player.lastAwardedPoints) =
      some [5480, 4480, 3480, 2480, 1480, 1480] ∧
    (5480 : Int) ≠ 5500 ∧ (4480 : Int) ≠ 4500 ∧ (1480 : Int) ≠ 1500 := by
  decide

/-! ## C3 — question index counterexample -/

/-- C3 counterexample: for the empty quiz, starting and then sending one more
host start-or-skip after the game has ended drives the current question index
to 1, strictly greater than the quiz's question count 0 — the index does
exceed the question count. -/
theorem claim3_counterexample :
    (applyEvents (newGame quizEmpty 100 0 "111111")
        [GEvent.hostStartOrSkip, GEvent.hostStartOrSkip]).map Game.currentQuestion =
      some 1 ∧
    ((quizEmpty.questions.length : Int) < 1) := by
  decide

/-! ## C4 — answering outside a question faults -/

/-- C4: in the Lobby state the current question index is -1, and handling a
QuestionAnswer runs `isCorrectChoice`, which indexes
`Quiz.Questions[-1]` before any bounds check: the handler panics (`none`)
instead of dropping the request or awarding zero. -/
theorem claim4_code_bug :
    stepGame gLobby (GEvent.playerAnswer 0 0) = none ∧
    gLobby.state = GameState.lobbyState ∧ gLobby.currentQuestion = -1 := by
  decide

/-! ## C2 — encode after decode fails for three of the four receivable kinds -/

/-- C2 counterexample: a valid Connect message decodes, but re-encoding the
decoded packet hits the `packetToPacketId` type switch, which has no
`ConnectPacket` case, and fails with "invalid packet type" (`none`) — no byte
sequence is produced at all. -/
theorem claim2_counterexample :
    decodeIncoming (0 :: marshalPayload (Packet.connect "123456" "bob")) =
      some (Packet.connect "123456" "bob") ∧
    packetToBytes (Packet.connect "123456" "bob") = none := by
  decide

/-! ## C7 — computing the leaderboard reorders the roster -/

/-- A game whose roster is in join order with ascending points. -/
def gRoster2 : Game :=
  { gPlay with players := [mkP 0, { mkP 1 with points := 100 }] }

/-- C7 counterexample: `getLeaderboard` sorts `g.Players` in place, so this
read reorders the join-ordered roster (here [0 pts, 100 pts] becomes
[100 pts, 0 pts]); any comparator-sorted permutation — the only behaviors
`sort.Slice` allows — must reorder this roster. -/
theorem claim7_counterexample :
    (getLeaderboard gRoster2).1.players ≠ gRoster2.players := by
  decide

/-! ## C10 — a repeat answer can decrease the total when the countdown went
negative -/

set_option maxRecDepth 40000 in
/-- C10 counterexample: with the zero-time question the countdown skips 0 and
keeps falling; after 260 ticks it is -260, and player `a` — whose answered
flag is already true with 5000 points — submits the correct choice again and
is awarded 4000 + (-260) × 16 = -160: the cumulative total drops to 4840,
so a repeat correct answer does not always increase the total. -/
theorem claim10_counterexample :
    (applyEvents (newGame quizZero 100 0 "333333") evsNegTime).map
        (fun g => (g.players.map Player.answered, g.players.map Player.points)) =
      some ([true, false], [5000, 0]) ∧
    (applyEvents (newGame quizZero 100 0 "333333")
        (evsNegTime ++ [GEvent.playerAnswer 0 0])).map
        (fun g => g.players.map Player.points) =
      some [4840, 0] ∧
    (4840 : Int) < 5000 := by
  decide
/-! ## Sort contract: the executable sort satisfies `sortSliceOutcome` -/

instance : IsTotal Player fun a b => b.points ≤ a.points :=
  ⟨fun a b => le_total b.points a.points⟩

instance : IsTrans Player fun a b => b.points ≤ a.points :=
  ⟨fun _ _ _ hab hbc => le_trans hbc hab⟩

/-- The executable sort is one of the outcomes `sort.Slice` permits. -/
lemma sortPlayers_outcome (l : List Player) : sortSliceOutcome l (sortPlayers l) :=
  ⟨List.perm_insertionSort _ l, List.sorted_insertionSort _ l⟩

/-! ## C6 — leaderboard shape -/

/-- C6 amended: for every roster and every outcome the `sort.Slice` contract
permits, the leaderboard has at most 3 entries and is sorted by descending
points; the executable model's sorted roster is such an outcome and its entry
list is exactly `leaderboardOf` of it.  (The tie-break-by-prior-roster-order
part of the claim is NOT guaranteed: see the counterexample.) -/
theorem claim6_amended :
    ∀ (g : Game) (s : List Player), sortSliceOutcome g.players s →
      (leaderboardOf s).length ≤ 3 ∧
      (leaderboardOf s).Pairwise (fun a b => b.points ≤ a.points) ∧
      sortSliceOutcome g.players (getLeaderboard g).1.players ∧
      (getLeaderboard g).2 = leaderboardOf (getLeaderboard g).1.players := by
  intro g s hs
  refine ⟨?_, ?_, sortPlayers_outcome g.players, rfl⟩
  · simp [leaderboardOf]
  · have htake : (s.take (min 3 s.length)).Pairwise fun a b => b.points ≤ a.points :=
      hs.2.sublist (List.take_sublist _ _)
    exact htake.map _ (fun a b h => h)

/-- Two equal-point players.  Any permutation of this roster is sorted by the
comparator, so the `sort.Slice` contract allows the swapped order. -/
def pTieA : Player := { mkP 0 with points := 5 }

/-- Second of the two equal-point players. -/
def pTieB : Player := { mkP 1 with points := 5 }

/-- C6 counterexample: on the two-entry tied roster `[pTieA, pTieB]`, the
swapped order `[pTieB, pTieA]` is a permitted outcome of the in-place
`sort.Slice` call (a comparator-sorted permutation; the library explicitly
does not guarantee stability, and beyond its 12-element insertion-sort cutoff
its pdqsort really does reorder equal elements), and the leaderboard computed
from it differs from the one computed from the prior roster order: the code
does not guarantee that ties are broken by the roster order before the sort. -/
theorem claim6_counterexample :
    sortSliceOutcome [pTieA, pTieB] [pTieB, pTieA] ∧
    leaderboardOf [pTieB, pTieA] ≠ leaderboardOf [pTieA, pTieB] := by
  refine ⟨⟨by decide, ?_⟩, by decide⟩
  unfold sortedByPointsDesc
  decide

/-- C6 witness: the amended statement applied to the concrete two-player
roster of `gRoster2`, with the executable sort as the chosen outcome. -/
theorem claim6_witness :
    (leaderboardOf (sortPlayers gRoster2.players)).length ≤ 3 ∧
    (leaderboardOf (sortPlayers gRoster2.players)).Pairwise
      (fun a b => b.points ≤ a.points) ∧
    sortSliceOutcome gRoster2.players (getLeaderboard gRoster2).1.players ∧
    (getLeaderboard gRoster2).2 =
      leaderboardOf (getLeaderboard gRoster2).1.players :=
  claim6_amended gRoster2 (sortPlayers gRoster2.players)
    (sortPlayers_outcome gRoster2.players)

/-! ## C7 — joins append; the leaderboard read reorders -/

/-- C7 amended: joining appends the new player at the roster's end (order =
join order), but computing the leaderboard is not order-preserving: it leaves
the roster sorted by descending points (an outcome of the in-place
`sort.Slice`), not in join order. -/
theorem claim7_amended :
    ∀ (g : Game) (name : String) (conn pid : Nat),
      (onPlayerJoin g name conn pid).1.players =
        g.players ++ [{ id := pid, name := name, connection := conn,
                        points := 0, lastAwardedPoints := 0, answered := false }] ∧
      (getLeaderboard g).1.players = sortPlayers g.players ∧
      sortSliceOutcome g.players (getLeaderboard g).1.players := by
  intro g name conn pid
  exact ⟨rfl, rfl, sortPlayers_outcome g.players⟩

/-! ## Codec round-trip lemmas -/

/-- Parsing inverts string serialization, leaving the rest untouched. -/
lemma readString_encodeString (s : String) (rest : List Nat) :
    readString (encodeString s ++ rest) = some (s, rest) := by
  have hlen : (s.data.map Char.toNat).length = s.length := by
    rw [List.length_map]; rfl
  simp only [encodeString, List.cons_append, readString]
  rw [if_pos (by rw [List.length_append, hlen]; omega)]
  have htake : (s.data.map Char.toNat ++ rest).take s.length = s.data.map Char.toNat := by
    rw [← hlen, List.take_left]
  have hdrop : (s.data.map Char.toNat ++ rest).drop s.length = rest := by
    rw [← hlen, List.drop_left]
  rw [htake, hdrop, List.map_map]
  have hmap : s.data.map (Char.ofNat ∘ Char.toNat) = s.data :=
    (List.map_congr_left fun c _ => Char.ofNat_toNat c).trans (List.map_id s.data)
  rw [hmap]

/-- Parsing inverts integer serialization. -/
lemma readInt_encodeInt (i : Int) (rest : List Nat) :
    readInt (encodeInt i ++ rest) = some (i, rest) := by
  by_cases h : i < 0
  · simp [encodeInt, readInt, h]
    rw [abs_of_neg h, neg_neg]
  · simp [encodeInt, readInt, h]
    omega

/-- Re-parsing a marshalled HostGame payload yields the packet back. -/
lemma unmarshal_marshal_hostGame (q : String) :
    unmarshalPayload RecvKind.hostGame (marshalPayload (Packet.hostGame q)) =
      some (Packet.hostGame q) := by
  have h := readString_encodeString q []
  rw [List.append_nil] at h
  simp [unmarshalPayload, marshalPayload, h]

/-- Decoding inverts encoding for HostGame packets. -/
lemma decode_encode_hostGame (q : String) :
    decodeIncoming (1 :: marshalPayload (Packet.hostGame q)) =
      some (Packet.hostGame q) := by
  have hlen : (marshalPayload (Packet.hostGame q)).length = q.length + 1 := by
    simp [marshalPayload, encodeString]
  simp only [decodeIncoming, List.length_cons]
  rw [if_neg (by omega)]
  simpa [packetIdToPacket] using unmarshal_marshal_hostGame q

/-- Anatomy of a successful decode: at least 2 bytes, the tag is one of the
four receivable ones, and the payload unmarshals as that kind. -/
lemma decodeIncoming_some {msg : List Nat} {p : Packet}
    (h : decodeIncoming msg = some p) :
    2 ≤ msg.length ∧ ∃ t data k, msg = t :: data ∧
      (t = 0 ∨ t = 1 ∨ t = 5 ∨ t = 7) ∧ packetIdToPacket t = some k ∧
      unmarshalPayload k data = some p := by
  by_cases hl : msg.length < 2
  · simp [decodeIncoming, hl] at h
  · cases msg with
    | nil => simp at hl
    | cons t data =>
      simp only [decodeIncoming, if_neg hl] at h
      cases hk : packetIdToPacket t with
      | none => rw [hk] at h; exact absurd h (by simp)
      | some k =>
        rw [hk] at h
        refine ⟨by omega, t, data, k, rfl, ?_, hk, h⟩
        unfold packetIdToPacket at hk
        split_ifs at hk <;> simp_all

/-- The constructor a successful unmarshal can produce, per kind. -/
lemma unmarshalPayload_shape {k : RecvKind} {data : List Nat} {p : Packet}
    (h : unmarshalPayload k data = some p) :
    (k = RecvKind.connect ∧ ∃ c n, p = Packet.connect c n) ∨
    (k = RecvKind.hostGame ∧ ∃ q, p = Packet.hostGame q) ∨
    (k = RecvKind.startGame ∧ p = Packet.startGame) ∨
    (k = RecvKind.questionAnswer ∧ ∃ q, p = Packet.questionAnswer q) := by
  cases k with
  | connect =>
    refine Or.inl ⟨rfl, ?_⟩
    cases h1 : readString data with
    | none => simp [unmarshalPayload, h1] at h
    | some r1 =>
      obtain ⟨c, rest1⟩ := r1
      cases h2 : readString rest1 with
      | none => simp [unmarshalPayload, h1, h2] at h
      | some r2 =>
        obtain ⟨n, rest2⟩ := r2
        simp only [unmarshalPayload, h1, h2] at h
        split_ifs at h with hr
        exact ⟨c, n, (Option.some_injective _ h).symm⟩
  | hostGame =>
    refine Or.inr (Or.inl ⟨rfl, ?_⟩)
    cases h1 : readString data with
    | none => simp [unmarshalPayload, h1] at h
    | some r1 =>
      obtain ⟨c, rest1⟩ := r1
      simp only [unmarshalPayload, h1] at h
      split_ifs at h with hr
      exact ⟨c, (Option.some_injective _ h).symm⟩
  | startGame =>
    refine Or.inr (Or.inr (Or.inl ⟨rfl, ?_⟩))
    simp only [unmarshalPayload] at h
    split_ifs at h
    exact (Option.some_injective _ h).symm
  | questionAnswer =>
    refine Or.inr (Or.inr (Or.inr ⟨rfl, ?_⟩))
    cases h1 : readInt data with
    | none => simp [unmarshalPayload, h1] at h
    | some r1 =>
      obtain ⟨q, rest1⟩ := r1
      simp only [unmarshalPayload, h1] at h
      split_ifs at h with hr
      exact ⟨q, (Option.some_injective _ h).symm⟩

/-! ## C2 — round-trip holds only for HostGame -/

/-- C2 amended: for every byte sequence the decoder accepts, re-encoding the
decoded packet round-trips only when the packet is a HostGame request (tag 1);
for the other three server-receivable kinds (Connect, StartGame,
QuestionAnswer) `PacketToBytes` fails with "invalid packet type" because the
`packetToPacketId` type switch has no case for them. -/
theorem claim2_amended :
    ∀ (msg : List Nat) (p : Packet), decodeIncoming msg = some p →
      ((∃ q, p = Packet.hostGame q) →
        packetToBytes p = some (1 :: marshalPayload p) ∧
        decodeIncoming (1 :: marshalPayload p) = some p) ∧
      ((∀ q, p ≠ Packet.hostGame q) → packetToBytes p = none) := by
  intro msg p h
  obtain ⟨-, t, data, k, -, -, -, hu⟩ := decodeIncoming_some h
  constructor
  · rintro ⟨q, rfl⟩
    exact ⟨rfl, decode_encode_hostGame q⟩
  · intro hne
    rcases unmarshalPayload_shape hu with ⟨-, c, n, rfl⟩ | ⟨-, q, rfl⟩ | ⟨-, rfl⟩ | ⟨-, q, rfl⟩
    · rfl
    · exact absurd rfl (hne q)
    · rfl
    · rfl

/-- C2 witness: the amended round-trip at the concrete HostGame request for
quiz id "abc". -/
theorem claim2_witness :
    packetToBytes (Packet.hostGame "abc") =
      some (1 :: marshalPayload (Packet.hostGame "abc")) ∧
    decodeIncoming (1 :: marshalPayload (Packet.hostGame "abc")) =
      some (Packet.hostGame "abc") :=
  (claim2_amended (1 :: marshalPayload (Packet.hostGame "abc"))
    (Packet.hostGame "abc") (by decide)).1 ⟨"abc", rfl⟩

/-! ## C8 — decode gate and drop-without-effect dispatch -/

/-- C8: a typed packet is produced only from a message of at least 2 bytes
whose first byte is one of the receivable tags 0/1/5/7 and whose remaining
bytes unmarshal as that kind's payload; whenever decoding fails,
`OnIncomingMessage` replies nothing and leaves every game untouched. -/
theorem claim8_dispatch :
    ∀ (ns : NetService) (con : Nat) (msg : List Nat),
      (∀ p, decodeIncoming msg = some p →
        2 ≤ msg.length ∧ ∃ t data k, msg = t :: data ∧
          (t = 0 ∨ t = 1 ∨ t = 5 ∨ t = 7) ∧ packetIdToPacket t = some k ∧
          unmarshalPayload k data = some p) ∧
      (decodeIncoming msg = none → onIncomingMessage ns con msg = some (ns, [])) := by
  intro ns con msg
  exact ⟨fun p h => decodeIncoming_some h, fun h => by simp [onIncomingMessage, h]⟩

/-- A directory holding one quiz and no games. -/
def nsW : NetService := { quizzes := [("abc", quizOne)], games := [], fresh := 0 }

/-- C8 witness: the unknown tag 9 is dropped with no reply and no effect. -/
theorem claim8_witness :
    onIncomingMessage nsW 7 [9, 9] = some (nsW, []) :=
  (claim8_dispatch nsW 7 [9, 9]).2 (by decide)

/-! ## C9 — QuestionShow goes only to the host connection -/

/-- Splitting a `some`-equality on pairs into its components. -/
lemma some_pair_inj {α β : Type} {x : α × β} {a : α} {b : β}
    (h : some x = some (a, b)) : x.1 = a ∧ x.2 = b :=
  Prod.ext_iff.1 (Option.some_injective _ h)

/-- Everything a broadcast sends carries the broadcast packet. -/
lemma mem_broadcastPacket {g : Game} {pkt : Packet} {ih : Bool} {c : Nat} {p : Packet}
    (h : (c, p) ∈ broadcastPacket g pkt ih) : p = pkt := by
  rcases List.mem_append.1 h with h1 | h2
  · obtain ⟨pl, -, heq⟩ := List.mem_map.1 h1
    exact ((Prod.ext_iff.1 heq).2).symm
  · split at h2
    · rw [List.mem_singleton] at h2
      exact (Prod.ext_iff.1 h2).2
    · exact absurd h2 (by simp)

/-- `Reveal` never emits a QuestionShow. -/
lemma reveal_no_questionShow {g : Game} {c : Nat} {q : QuizQuestion}
    (h : (c, Packet.questionShow q) ∈ (reveal g).2) : False := by
  simp only [reveal] at h
  rcases List.mem_append.1 h with h1 | h2
  · obtain ⟨pl, -, heq⟩ := List.mem_map.1 h1
    exact absurd ((Prod.ext_iff.1 heq).2) (by simp)
  · exact absurd (mem_broadcastPacket h2) (by simp)

/-- `Intermission` never emits a QuestionShow. -/
lemma intermission_no_questionShow {g : Game} {c : Nat} {q : QuizQuestion}
    (h : (c, Packet.questionShow q) ∈ (intermission g).2) : False := by
  simp only [intermission, changeState, sendPacket] at h
  rcases List.mem_append.1 h with h1 | h2
  · exact absurd (mem_broadcastPacket h1) (by simp)
  · rw [List.mem_singleton] at h2
    exact absurd ((Prod.ext_iff.1 h2).2) (by simp)

/-- Whatever `NextQuestion` emits as a QuestionShow goes to the host. -/
lemma nextQuestion_questionShow {g g' : Game} {s : List (Nat × Packet)}
    {c : Nat} {q : QuizQuestion} (h : nextQuestion g = some (g', s))
    (hm : (c, Packet.questionShow q) ∈ s) : c = g.host := by
  simp only [nextQuestion, resetPlayerAnswerStates, changeState, endGame, sendPacket] at h
  split at h
  · rw [Option.some.injEq, Prod.mk.injEq] at h
    obtain ⟨-, hs⟩ := h
    rw [← hs] at hm
    exact absurd (mem_broadcastPacket hm) (by simp)
  · split at h
    · exact Option.noConfusion h
    · rw [Option.some.injEq, Prod.mk.injEq] at h
      obtain ⟨-, hs⟩ := h
      rw [← hs] at hm
      rcases List.mem_append.1 hm with h1 | h2
      · exact absurd (mem_broadcastPacket h1) (by simp)
      · rw [List.mem_singleton] at h2
        exact (Prod.ext_iff.1 h2).1

/-- Whatever `Tick` emits as a QuestionShow goes to the host. -/
lemma tick_questionShow {g g' : Game} {s : List (Nat × Packet)}
    {c : Nat} {q : QuizQuestion} (h : tick g = some (g', s))
    (hm : (c, Packet.questionShow q) ∈ s) : c = g.host := by
  simp only [tick, sendPacket] at h
  split at h
  · split at h
    · rw [Option.some.injEq, Prod.mk.injEq] at h
      obtain ⟨-, hs⟩ := h
      rw [← hs] at hm
      rcases List.mem_cons.1 hm with h1 | h2
      · exact absurd ((Prod.ext_iff.1 h1).2) (by simp)
      · exact absurd h2 reveal_no_questionShow
    · rw [Option.some.injEq, Prod.mk.injEq] at h
      obtain ⟨-, hs⟩ := h
      rw [← hs] at hm
      rcases List.mem_cons.1 hm with h1 | h2
      · exact absurd ((Prod.ext_iff.1 h1).2) (by simp)
      · exact absurd h2 intermission_no_questionShow
    · revert h
      cases hq : nextQuestion { g with time := g.time - 1 } with
      | none => intro h; exact Option.noConfusion h
      | some r =>
        intro h
        rw [Option.some.injEq, Prod.mk.injEq] at h
        obtain ⟨-, hs⟩ := h
        rw [← hs] at hm
        rcases List.mem_cons.1 hm with h1 | h2
        · exact absurd ((Prod.ext_iff.1 h1).2) (by simp)
        · have : r = (r.1, r.2) := rfl
          rw [this] at hq
          have hc := nextQuestion_questionShow hq h2
          exact hc
    · rw [Option.some.injEq, Prod.mk.injEq] at h
      obtain ⟨-, hs⟩ := h
      rw [← hs] at hm
      rw [List.mem_singleton] at hm
      exact absurd ((Prod.ext_iff.1 hm).2) (by simp)
  · rw [Option.some.injEq, Prod.mk.injEq] at h
    obtain ⟨-, hs⟩ := h
    rw [← hs] at hm
    rw [List.mem_singleton] at hm
    exact absurd ((Prod.ext_iff.1 hm).2) (by simp)

/-- Whatever `Start` emits as a QuestionShow goes to the host. -/
lemma startGame_questionShow {g g' : Game} {s : List (Nat × Packet)}
    {c : Nat} {q : QuizQuestion} (h : startGame g = some (g', s))
    (hm : (c, Packet.questionShow q) ∈ s) : c = g.host := by
  simp only [startGame, changeState] at h
  revert h
  cases hq : nextQuestion { g with state := GameState.playState } with
  | none => intro h; exact Option.noConfusion h
  | some r =>
    intro h
    rw [Option.some.injEq, Prod.mk.injEq] at h
    obtain ⟨-, hs⟩ := h
    rw [← hs] at hm
    rcases List.mem_append.1 hm with h1 | h2
    · exact absurd (mem_broadcastPacket h1) (by simp)
    · have : r = (r.1, r.2) := rfl
      rw [this] at hq
      have hc := nextQuestion_questionShow hq h2
      exact hc

/-- A player answer never emits a QuestionShow. -/
lemma onPlayerAnswer_no_questionShow {g g' : Game} {s : List (Nat × Packet)}
    {choice : Int} {i : Nat} {c : Nat} {q : QuizQuestion}
    (h : onPlayerAnswer g choice i = some (g', s))
    (hm : (c, Packet.questionShow q) ∈ s) : False := by
  simp only [onPlayerAnswer] at h
  split at h
  · exact Option.noConfusion h
  · revert h
    split
    · intro h; exact Option.noConfusion h
    · intro h
      repeat' split at h
      all_goals obtain ⟨-, hs⟩ := some_pair_inj h
      all_goals rw [← hs] at hm
      all_goals first
        | exact reveal_no_questionShow hm
        | simp at hm

/-- C9: every QuestionShow emission of any step targets exactly the game's
host connection; in particular, whenever no player shares the host's
connection handle, a QuestionShow never goes to a player's connection, so the
per-choice correctness flags it carries never reach a player-facing channel. -/
theorem claim9_questionShow_host_only :
    ∀ (g : Game) (e : GEvent) (g' : Game) (s : List (Nat × Packet))
      (c : Nat) (q : QuizQuestion),
      stepGame g e = some (g', s) → (c, Packet.questionShow q) ∈ s →
      c = g.host ∧ ∀ pl ∈ g.players, pl.connection ≠ g.host → c ≠ pl.connection := by
  intro g e g' s c q h hm
  have hc : c = g.host := by
    cases e with
    | timerTick =>
      simp only [stepGame] at h
      split at h
      · obtain ⟨-, hs⟩ := some_pair_inj h
        rw [← hs] at hm
        simp at hm
      · exact tick_questionShow h hm
    | hostStartOrSkip =>
      simp only [stepGame, startOrSkip] at h
      split at h
      · exact startGame_questionShow h hm
      · exact nextQuestion_questionShow h hm
    | playerAnswer i choice =>
      exact (onPlayerAnswer_no_questionShow h hm).elim
    | playerJoin name conn pid =>
      simp only [stepGame] at h
      obtain ⟨-, hs⟩ := some_pair_inj h
      rw [← hs] at hm
      simp [onPlayerJoin, sendPacket] at hm
    | playerDisconnect pl =>
      simp only [stepGame] at h
      obtain ⟨-, hs⟩ := some_pair_inj h
      rw [← hs] at hm
      simp [onPlayerDisconnect, sendPacket] at hm
  refine ⟨hc, fun pl _ hne hcon => hne ?_⟩
  rw [← hc, hcon]

/-- A lobby game on `quizOne` with one player on connection 10, host 100. -/
def gW : Game := { newGame quizOne 100 0 "444444" with players := [mkP 0] }

/-- The step taken when the host of `gW` starts the game. -/
def gWres : Game × List (Nat × Packet) :=
  (stepGame gW GEvent.hostStartOrSkip).getD (gW, [])

/-- C9 witness: starting `gW` emits a QuestionShow; the theorem places it on
the host connection 100, which is no player's connection (the sole player sits
on connection 10). -/
theorem claim9_witness :
    (100 : Nat) = gW.host ∧ (100 : Nat) ≠ (mkP 0).connection :=
  ⟨(claim9_questionShow_host_only gW GEvent.hostStartOrSkip gWres.1 gWres.2 100 qOne
      (by decide) (by decide)).1,
   (claim9_questionShow_host_only gW GEvent.hostStartOrSkip gWres.1 gWres.2 100 qOne
      (by decide) (by decide)).2 (mkP 0) (by decide) (by decide)⟩

/-! ## Game invariant -/

/-- The state/index invariant all reachable games satisfy: the index starts
at -1 and is -1 exactly in the Lobby, in-range while a question round is
running, and at or beyond the question count exactly once the game ended. -/
def GameInv (g : Game) : Prop :=
  -1 ≤ g.currentQuestion ∧
  (g.ended = true ↔ g.state = GameState.endState) ∧
  (g.state = GameState.lobbyState → g.currentQuestion = -1) ∧
  ((g.state = GameState.playState ∨ g.state = GameState.intermissionState ∨
      g.state = GameState.revealState) →
    0 ≤ g.currentQuestion ∧ g.currentQuestion < g.quiz.questions.length) ∧
  (g.state = GameState.endState → (g.quiz.questions.length : Int) ≤ g.currentQuestion)

/-- A fresh game satisfies the invariant. -/
lemma gameInv_newGame (quiz : Quiz) (host gid : Nat) (code : String) :
    GameInv (newGame quiz host gid code) := by
  simp [GameInv, newGame]

/-- A non-`End` state of a game satisfying the `ended ↔ End` clause has the
`Ended` flag down. -/
lemma ended_false_of_state {g : Game}
    (h2 : g.ended = true ↔ g.state = GameState.endState)
    (hs : g.state ≠ GameState.endState) : g.ended = false := by
  cases hb : g.ended
  · rfl
  · exact absurd (h2.1 hb) hs

/-- A current question exists exactly when the index is in range. -/
lemma getCurrentQuestion_some_bounds {g : Game} {q : QuizQuestion}
    (h : getCurrentQuestion g = some q) :
    0 ≤ g.currentQuestion ∧ g.currentQuestion < g.quiz.questions.length := by
  unfold getCurrentQuestion at h
  split_ifs at h with hneg
  obtain ⟨hlt, -⟩ := List.getElem?_eq_some.1 h
  omega

/-- Field bookkeeping for `Reveal`. -/
lemma reveal_fields (g : Game) :
    (reveal g).1.currentQuestion = g.currentQuestion ∧ (reveal g).1.quiz = g.quiz ∧
    (reveal g).1.ended = g.ended ∧ (reveal g).1.state = GameState.revealState :=
  ⟨rfl, rfl, rfl, rfl⟩

/-- Field bookkeeping for `Intermission`. -/
lemma intermission_fields (g : Game) :
    (intermission g).1.currentQuestion = g.currentQuestion ∧
    (intermission g).1.quiz = g.quiz ∧
    (intermission g).1.ended = g.ended ∧
    (intermission g).1.state = GameState.intermissionState :=
  ⟨rfl, rfl, rfl, rfl⟩

/-- What `NextQuestion` does to the fields the invariant watches. -/
lemma nextQuestion_spec {g g' : Game} {s : List (Nat × Packet)}
    (h : nextQuestion g = some (g', s)) :
    g'.currentQuestion = g.currentQuestion + 1 ∧ g'.quiz = g.quiz ∧
    (((g.quiz.questions.length : Int) ≤ g.currentQuestion + 1 ∧
        g'.ended = true ∧ g'.state = GameState.endState) ∨
      (0 ≤ g.currentQuestion + 1 ∧
        g.currentQuestion + 1 < g.quiz.questions.length ∧
        g'.ended = g.ended ∧ g'.state = GameState.playState)) := by
  simp only [nextQuestion, resetPlayerAnswerStates, changeState, endGame, sendPacket] at h
  split at h
  · rename_i hc
    obtain ⟨hg, -⟩ := some_pair_inj h
    rw [← hg]
    exact ⟨rfl, rfl, Or.inl ⟨hc, rfl, rfl⟩⟩
  · rename_i hc
    revert h
    cases hq : getCurrentQuestion { g with
        currentQuestion := g.currentQuestion + 1,
        state := GameState.playState,
        players := g.players.map fun p => { p with answered := false } } with
    | none => intro h; exact Option.noConfusion h
    | some q =>
      intro h
      obtain ⟨hg, -⟩ := some_pair_inj h
      rw [← hg]
      have hb := getCurrentQuestion_some_bounds hq
      exact ⟨rfl, rfl, Or.inr ⟨hb.1, by simpa using hb.2, rfl, rfl⟩⟩

/-- What a handled player answer does to the fields the invariant watches:
the index is untouched, the state either stays or moves to Reveal, and the
handler only returns at all when the current question index is in range. -/
lemma onPlayerAnswer_spec {g g' : Game} {s : List (Nat × Packet)}
    {choice : Int} {i : Nat} (h : onPlayerAnswer g choice i = some (g', s)) :
    g'.currentQuestion = g.currentQuestion ∧ g'.quiz = g.quiz ∧
    g'.ended = g.ended ∧
    (g'.state = g.state ∨ g'.state = GameState.revealState) ∧
    0 ≤ g.currentQuestion ∧ g.currentQuestion < g.quiz.questions.length := by
  simp only [onPlayerAnswer] at h
  split at h
  · exact Option.noConfusion h
  · rcases hcc : isCorrectChoice g choice with - | correct
    · rw [hcc] at h
      exact Option.noConfusion h
    · rw [hcc] at h
      have hq : ∃ q, getCurrentQuestion g = some q := by
        rcases hgq : getCurrentQuestion g with - | q
        · rw [isCorrectChoice, hgq] at hcc
          exact absurd hcc (by simp)
        · exact ⟨q, rfl⟩
      obtain ⟨q, hgq⟩ := hq
      have hb := getCurrentQuestion_some_bounds hgq
      repeat' split at h
      all_goals first
        | exact Option.noConfusion h
        | (obtain ⟨hg, -⟩ := some_pair_inj h
           rw [← hg]
           first
             | exact ⟨rfl, rfl, rfl, Or.inr rfl, hb.1, hb.2⟩
             | exact ⟨rfl, rfl, rfl, Or.inl rfl, hb.1, hb.2⟩)

/-- Invariant transport for in-round transitions (Play/Reveal/Intermission to
Play/Reveal/Intermission) that keep index, quiz and flag. -/
lemma gameInv_round {g g' : Game} (hInv : GameInv g)
    (hpre : g.state = GameState.playState ∨ g.state = GameState.intermissionState ∨
      g.state = GameState.revealState)
    (hidx : g'.currentQuestion = g.currentQuestion)
    (hquiz : g'.quiz = g.quiz)
    (hended : g'.ended = g.ended)
    (hstate : g'.state = GameState.playState ∨ g'.state = GameState.intermissionState ∨
      g'.state = GameState.revealState) :
    GameInv g' := by
  obtain ⟨h1, h2, h3, h4, h5⟩ := hInv
  have hb := h4 hpre
  have hend : g.ended = false := by
    refine ended_false_of_state h2 ?_
    rcases hpre with hx | hx | hx <;> rw [hx] <;> decide
  refine ⟨by omega, ?_, ?_, ?_, ?_⟩
  · constructor
    · intro hx
      rw [hended, hend] at hx
      exact absurd hx (by simp)
    · intro hx
      rcases hstate with hy | hy | hy <;> rw [hx] at hy <;>
        exact absurd hy (by decide)
  · intro hl
    rcases hstate with hy | hy | hy <;> rw [hl] at hy <;> exact absurd hy (by decide)
  · intro _
    rw [hidx, hquiz]
    exact hb
  · intro hq
    rcases hstate with hy | hy | hy <;> rw [hq] at hy <;> exact absurd hy (by decide)

/-- Invariant transport through `NextQuestion` (the only index changer). -/
lemma gameInv_after_nextQuestion {g g' : Game} {s : List (Nat × Packet)}
    (h : nextQuestion g = some (g', s)) (h1 : -1 ≤ g.currentQuestion)
    (hend : g.ended = false ∨ (g.quiz.questions.length : Int) ≤ g.currentQuestion) :
    GameInv g' ∧ g.currentQuestion ≤ g'.currentQuestion ∧ g'.quiz = g.quiz := by
  obtain ⟨hidx, hquiz, hcase⟩ := nextQuestion_spec h
  rcases hcase with ⟨hc, he, hs⟩ | ⟨hc0, hclt, he, hs⟩
  · refine ⟨⟨by omega, ?_, ?_, ?_, ?_⟩, by omega, hquiz⟩
    · simp [he, hs]
    · intro hl
      rw [hs] at hl
      exact absurd hl (by decide)
    · intro hr
      rcases hr with hx | hx | hx <;> rw [hs] at hx <;> exact absurd hx (by decide)
    · intro _
      rw [hquiz, hidx]
      exact hc
  · rcases hend with hf | hle
    · refine ⟨⟨by omega, ?_, ?_, ?_, ?_⟩, by omega, hquiz⟩
      · rw [he, hf, hs]
        simp
      · intro hl
        rw [hs] at hl
        exact absurd hl (by decide)
      · intro _
        rw [hquiz, hidx]
        omega
      · intro hq
        rw [hs] at hq
        exact absurd hq (by decide)
    · exact absurd hclt (by omega)

/-- Bool fact: a non-`true` flag is `false`. -/
lemma bool_eq_false {b : Bool} (h : ¬ b = true) : b = false := by
  cases b
  · rfl
  · exact absurd rfl h

/-- The invariant is preserved by every successful step, the question index
never decreases, and the quiz never changes. -/
lemma stepGame_inv {g g' : Game} {e : GEvent} {s : List (Nat × Packet)}
    (hInv : GameInv g) (h : stepGame g e = some (g', s)) :
    GameInv g' ∧ g.currentQuestion ≤ g'.currentQuestion ∧ g'.quiz = g.quiz := by
  obtain ⟨h1, h2, h3, h4, h5⟩ := hInv
  cases e with
  | timerTick =>
    simp only [stepGame] at h
    split at h
    · obtain ⟨hg, -⟩ := some_pair_inj h
      rw [← hg]
      exact ⟨⟨h1, h2, h3, h4, h5⟩, le_refl _, rfl⟩
    · rename_i hendT
      have hf : g.ended = false := bool_eq_false hendT
      simp only [tick, sendPacket] at h
      split at h
      · split at h
        · -- Play: reveal
          rename_i heq
          rw [Option.some.injEq, Prod.mk.injEq] at h
          obtain ⟨hg, -⟩ := h
          rw [← hg]
          refine ⟨gameInv_round ⟨h1, h2, h3, h4, h5⟩ (Or.inl heq) rfl rfl rfl
            (Or.inr (Or.inr rfl)), le_refl _, rfl⟩
        · -- Reveal: intermission
          rename_i heq
          rw [Option.some.injEq, Prod.mk.injEq] at h
          obtain ⟨hg, -⟩ := h
          rw [← hg]
          refine ⟨gameInv_round ⟨h1, h2, h3, h4, h5⟩ (Or.inr (Or.inr heq)) rfl rfl rfl
            (Or.inr (Or.inl rfl)), le_refl _, rfl⟩
        · -- Intermission: next question
          revert h
          cases hq : nextQuestion { g with time := g.time - 1 } with
          | none => intro h; exact Option.noConfusion h
          | some r =>
            intro h
            rw [Option.some.injEq, Prod.mk.injEq] at h
            obtain ⟨hg, -⟩ := h
            have : r = (r.1, r.2) := rfl
            rw [this] at hq
            have hres := gameInv_after_nextQuestion hq h1 (Or.inl hf)
            rw [← hg]
            exact hres
        · -- other states at zero: unchanged but for the clock
          rw [Option.some.injEq, Prod.mk.injEq] at h
          obtain ⟨hg, -⟩ := h
          rw [← hg]
          exact ⟨⟨h1, h2, h3, h4, h5⟩, le_refl _, rfl⟩
      · rw [Option.some.injEq, Prod.mk.injEq] at h
        obtain ⟨hg, -⟩ := h
        rw [← hg]
        exact ⟨⟨h1, h2, h3, h4, h5⟩, le_refl _, rfl⟩
  | hostStartOrSkip =>
    simp only [stepGame, startOrSkip] at h
    split at h
    · -- Lobby: Start = ChangeState(Play) then NextQuestion
      rename_i hlob
      simp only [startGame, changeState] at h
      revert h
      cases hq : nextQuestion { g with state := GameState.playState } with
      | none => intro h; exact Option.noConfusion h
      | some r =>
        intro h
        rw [Option.some.injEq, Prod.mk.injEq] at h
        obtain ⟨hg, -⟩ := h
        have : r = (r.1, r.2) := rfl
        rw [this] at hq
        have hgEnd : g.ended = false := ended_false_of_state h2 (by rw [hlob]; decide)
        have hres := gameInv_after_nextQuestion hq h1 (Or.inl hgEnd)
        rw [← hg]
        exact hres
    · -- not Lobby: NextQuestion directly
      rename_i hnl
      have hend : g.ended = false ∨ (g.quiz.questions.length : Int) ≤ g.currentQuestion := by
        cases hst : g.state with
        | lobbyState => exact absurd hst hnl
        | endState => exact Or.inr (h5 hst)
        | playState => exact Or.inl (ended_false_of_state h2 (by rw [hst]; decide))
        | intermissionState => exact Or.inl (ended_false_of_state h2 (by rw [hst]; decide))
        | revealState => exact Or.inl (ended_false_of_state h2 (by rw [hst]; decide))
      exact gameInv_after_nextQuestion h h1 hend
  | playerAnswer i choice =>
    have hspec := onPlayerAnswer_spec h
    obtain ⟨hidx, hquiz, hended, hstate, hb0, hblt⟩ := hspec
    have hpre : g.state = GameState.playState ∨ g.state = GameState.intermissionState ∨
        g.state = GameState.revealState := by
      cases hst : g.state with
      | lobbyState => exact absurd (h3 hst) (by omega)
      | endState => exact absurd (h5 hst) (by omega)
      | playState => exact Or.inl rfl
      | intermissionState => exact Or.inr (Or.inl rfl)
      | revealState => exact Or.inr (Or.inr rfl)
    have hstate' : g'.state = GameState.playState ∨ g'.state = GameState.intermissionState ∨
        g'.state = GameState.revealState := by
      rcases hstate with hx | hx
      · rw [hx]; exact hpre
      · exact Or.inr (Or.inr hx)
    exact ⟨gameInv_round ⟨h1, h2, h3, h4, h5⟩ hpre hidx hquiz hended hstate',
      by omega, hquiz⟩
  | playerJoin name conn pid =>
    simp only [stepGame] at h
    obtain ⟨hg, -⟩ := some_pair_inj h
    rw [← hg]
    exact ⟨⟨h1, h2, h3, h4, h5⟩, le_refl _, rfl⟩
  | playerDisconnect pl =>
    simp only [stepGame] at h
    obtain ⟨hg, -⟩ := some_pair_inj h
    rw [← hg]
    exact ⟨⟨h1, h2, h3, h4, h5⟩, le_refl _, rfl⟩

/-- Every reachable game satisfies the invariant. -/
lemma reachable_inv {g : Game} (h : Reachable g) : GameInv g := by
  induction h with
  | init quiz host gid code => exact gameInv_newGame quiz host gid code
  | step hr hs ih => exact (stepGame_inv ih hs).1

/-! ## C3 — question index behavior -/

/-- C3 amended: the current question index starts at -1, never decreases
across any step, and while the state is not End it is -1 or a valid index
into the quiz's question sequence.  (The "never exceeds the question count"
part of the original claim is false: a host start-or-skip processed after the
game has ended increments the index past the count — see the
counterexample.) -/
theorem claim3_amended :
    (∀ (quiz : Quiz) (host gid : Nat) (code : String),
      (newGame quiz host gid code).currentQuestion = -1) ∧
    ∀ g : Game, Reachable g →
      -1 ≤ g.currentQuestion ∧
      (g.state ≠ GameState.endState →
        g.currentQuestion = -1 ∨
          (0 ≤ g.currentQuestion ∧ g.currentQuestion < g.quiz.questions.length)) ∧
      ∀ (e : GEvent) (g' : Game) (s : List (Nat × Packet)),
        stepGame g e = some (g', s) → g.currentQuestion ≤ g'.currentQuestion := by
  refine ⟨fun quiz host gid code => rfl, fun g hg => ?_⟩
  obtain ⟨h1, h2, h3, h4, h5⟩ := reachable_inv hg
  refine ⟨h1, ?_, fun e g' s hstep => (stepGame_inv ⟨h1, h2, h3, h4, h5⟩ hstep).2.1⟩
  intro hne
  cases hst : g.state with
  | lobbyState => exact Or.inl (h3 hst)
  | endState => exact absurd hst hne
  | playState => exact Or.inr (h4 (Or.inl hst))
  | intermissionState => exact Or.inr (h4 (Or.inr (Or.inl hst)))
  | revealState => exact Or.inr (h4 (Or.inr (Or.inr hst)))

/-- C3 witness: the amended statement at a freshly created game. -/
theorem claim3_witness :
    -1 ≤ (newGame quizOne 100 0 "555555").currentQuestion :=
  (claim3_amended.2 (newGame quizOne 100 0 "555555")
    (Reachable.init quizOne 100 0 "555555")).1

/-! ## C5 — End is terminal -/

/-- The packet kinds the claim says an ended game must never emit again. -/
def endForbidden : Packet → Bool
  | Packet.tick _ => true
  | Packet.playerReveal _ => true
  | Packet.questionShow _ => true
  | _ => false

/-- `NextQuestion` taken while the quiz is already exhausted only rebroadcasts
the End state change. -/
lemma nextQuestion_end_sends {g g' : Game} {s : List (Nat × Packet)}
    (h : nextQuestion g = some (g', s))
    (hc : (g.quiz.questions.length : Int) ≤ g.currentQuestion + 1) :
    ∀ c p, (c, p) ∈ s → p = Packet.changeGameState GameState.endState := by
  simp only [nextQuestion, endGame, changeState] at h
  rw [if_pos hc] at h
  obtain ⟨-, hs⟩ := some_pair_inj h
  intro c p hm
  rw [← hs] at hm
  exact mem_broadcastPacket hm

/-- One step taken from an ended (reachable) game: the game stays ended in the
End state, and nothing it sends is a Tick, PlayerReveal or QuestionShow. -/
lemma step_after_ended {g g' : Game} {e : GEvent} {s : List (Nat × Packet)}
    (hInv : GameInv g) (hend : g.ended = true)
    (h : stepGame g e = some (g', s)) :
    g'.ended = true ∧ g'.state = GameState.endState ∧
      ∀ c p, (c, p) ∈ s → endForbidden p = false := by
  obtain ⟨h1, h2, h3, h4, h5⟩ := hInv
  have hst : g.state = GameState.endState := h2.1 hend
  have hlen : (g.quiz.questions.length : Int) ≤ g.currentQuestion := h5 hst
  cases e with
  | timerTick =>
    simp only [stepGame, hend] at h
    obtain ⟨hg, hs⟩ := some_pair_inj h
    rw [← hg, ← hs]
    exact ⟨hend, hst, fun c p hm => by simp at hm⟩
  | hostStartOrSkip =>
    simp only [stepGame, startOrSkip] at h
    rw [if_neg (by rw [hst]; decide)] at h
    obtain ⟨hidx, hquiz, hcase⟩ := nextQuestion_spec h
    rcases hcase with ⟨hc, he, hsE⟩ | ⟨hc0, hclt, he, hsP⟩
    · refine ⟨he, hsE, fun c p hm => ?_⟩
      rw [nextQuestion_end_sends h (by omega) c p hm]
      rfl
    · exact absurd hclt (by omega)
  | playerAnswer i choice =>
    have hspec := onPlayerAnswer_spec h
    exact absurd hspec.2.2.2.2.2 (by omega)
  | playerJoin name conn pid =>
    simp only [stepGame] at h
    obtain ⟨hg, hs⟩ := some_pair_inj h
    rw [← hg, ← hs]
    refine ⟨hend, hst, fun c p hm => ?_⟩
    simp [onPlayerJoin, sendPacket] at hm
    rcases hm with ⟨-, rfl⟩ | ⟨-, rfl⟩ <;> rfl
  | playerDisconnect pl =>
    simp only [stepGame] at h
    obtain ⟨hg, hs⟩ := some_pair_inj h
    rw [← hg, ← hs]
    refine ⟨hend, hst, fun c p hm => ?_⟩
    simp [onPlayerDisconnect, sendPacket] at hm
    rw [hm.2]
    rfl

/-- C5: once a reachable game has ended, every further step leaves it ended in
the End state, and no packet emitted along any further event trace is a Tick,
PlayerReveal or QuestionShow. -/
theorem claim5_terminal :
    ∀ g : Game, Reachable g → g.ended = true →
      (∀ (e : GEvent) (g' : Game) (s : List (Nat × Packet)),
        stepGame g e = some (g', s) →
          g'.ended = true ∧ g'.state = GameState.endState) ∧
      ∀ (evs : List GEvent) (c : Nat) (p : Packet),
        (c, p) ∈ runTrace g evs → endForbidden p = false := by
  have main : ∀ (evs : List GEvent) (g : Game), Reachable g → g.ended = true →
      ∀ (c : Nat) (p : Packet), (c, p) ∈ runTrace g evs → endForbidden p = false := by
    intro evs
    induction evs with
    | nil => intro g _ _ c p hm; simp [runTrace] at hm
    | cons e es ih =>
      intro g hg hend c p hm
      cases hstep : stepGame g e with
      | none => simp [runTrace, hstep] at hm
      | some r =>
        simp only [runTrace, hstep] at hm
        have hr : r = (r.1, r.2) := rfl
        rw [hr] at hstep
        have hafter := step_after_ended (reachable_inv hg) hend hstep
        rcases List.mem_append.1 hm with h1 | h2
        · exact hafter.2.2 c p h1
        · exact ih r.1 (Reachable.step hg hstep) hafter.1 c p h2
  intro g hg hend
  exact ⟨fun e g' s h =>
      ⟨(step_after_ended (reachable_inv hg) hend h).1,
       (step_after_ended (reachable_inv hg) hend h).2.1⟩,
    fun evs => main evs g hg hend⟩

/-- The game reached by starting the empty-quiz game once: it ends at once. -/
def gEndedStep : Game × List (Nat × Packet) :=
  (stepGame (newGame quizEmpty 100 0 "111111") GEvent.hostStartOrSkip).getD
    (newGame quizEmpty 100 0 "111111", [])

/-- C5 witness: the theorem applied to the concrete ended game reached from
the empty quiz, stepped by a further host start-or-skip. -/
theorem claim5_witness :
    gEndedStep.1.ended = true ∧ gEndedStep.1.state = GameState.endState := by
  have hreach : Reachable gEndedStep.1 :=
    Reachable.step (Reachable.init quizEmpty 100 0 "111111")
      (show stepGame (newGame quizEmpty 100 0 "111111") GEvent.hostStartOrSkip =
        some (gEndedStep.1, gEndedStep.2) by decide)
  exact (claim5_terminal gEndedStep.1 hreach (by decide)).1 GEvent.timerTick
    gEndedStep.1 [] (by decide)

/-! ## C1 — scoring formula -/

/-- The award formula as the spec words it: the k-th respondent to the
current question (k counts the answering player) with `remaining` countdown
seconds left earns `orderBonus + timeBonus`, where
`orderBonus = 5000 - 1000 * min 4 (k - 1)` and
`timeBonus = remaining * (1000 / 60)` under truncating integer division. -/
def specAward (k remaining : Int) : Int :=
  (5000 - 1000 * min 4 (k - 1)) + remaining * (1000 / 60)

/-- The code's reward is the spec formula evaluated at the number of players
already flagged as answered plus one (the respondent themselves). -/
lemma getPointsReward_eq_specAward (g : Game) :
    getPointsReward g = specAward (((getAnsweredPlayers g).length : Int) + 1) g.time := by
  simp [getPointsReward, specAward]

/-- How a handled answer rewrites the answering player's roster entry. -/
lemma onPlayerAnswer_result {g g' : Game} {s : List (Nat × Packet)}
    {choice : Int} {i : Nat} {pl : Player} {correct : Bool}
    (hpl : g.players[i]? = some pl) (hcc : isCorrectChoice g choice = some correct)
    (h : onPlayerAnswer g choice i = some (g', s)) :
    g'.players[i]? = some
      { pl with
        lastAwardedPoints := if correct then getPointsReward g else 0,
        points := pl.points + (if correct then getPointsReward g else 0),
        answered := true } := by
  have hi : i < g.players.length := by
    rcases List.getElem?_eq_some.1 hpl with ⟨hlt, -⟩
    exact hlt
  cases correct <;>
    simp only [onPlayerAnswer, hpl, hcc] at h <;>
    rcases ite_eq_iff.1 h with ⟨-, hx⟩ | ⟨-, hx⟩ <;>
    obtain ⟨hg, -⟩ := some_pair_inj hx <;>
    rw [← hg] <;>
    simp [reveal, changeState, List.getElem?_map, List.getElem?_set_self,
      List.length_map, hi]

/-- C1 amended: a correct answer in the Play state by a player who has not
yet answered is awarded exactly the spec formula at `k` = (players already
flagged answered) + 1 and the current remaining time — with
`timeBonus = remaining * (1000 / 60) = remaining * 16` under the truncating
integer division the code performs (so 30 remaining seconds add 480, not
500); an incorrect answer is awarded 0 and leaves the total unchanged. -/
theorem claim1_amended :
    ∀ (g : Game) (i : Nat) (pl : Player) (choice : Int) (g' : Game)
      (s : List (Nat × Packet)),
      g.state = GameState.playState →
      g.players[i]? = some pl → pl.answered = false →
      onPlayerAnswer g choice i = some (g', s) →
      (isCorrectChoice g choice = some true →
        (g'.players[i]?).map Player.lastAwardedPoints =
          some (specAward (((getAnsweredPlayers g).length : Int) + 1) g.time) ∧
        (g'.players[i]?).map Player.points =
          some (pl.points +
            specAward (((getAnsweredPlayers g).length : Int) + 1) g.time)) ∧
      (isCorrectChoice g choice = some false →
        (g'.players[i]?).map Player.lastAwardedPoints = some 0 ∧
        (g'.players[i]?).map Player.points = some pl.points) := by
  intro g i pl choice g' s hplay hpl hans h
  constructor
  · intro hcc
    have hres := onPlayerAnswer_result hpl hcc h
    rw [hres]
    simp [← getPointsReward_eq_specAward]
  · intro hcc
    have hres := onPlayerAnswer_result hpl hcc h
    rw [hres]
    simp

/-- The state reached when the first of `gPlay`'s six players answers
correctly with 30 seconds left. -/
def gPlayStep : Game × List (Nat × Packet) :=
  (onPlayerAnswer gPlay 0 0).getD (gPlay, [])

/-- C1 witness: the amended formula at the concrete first respondent of
`gPlay` (the award evaluates to 5000 + 480 = 5480). -/
theorem claim1_witness :
    (gPlayStep.1.players[0]?).map Player.lastAwardedPoints =
      some (specAward (((getAnsweredPlayers gPlay).length : Int) + 1) gPlay.time) ∧
    (gPlayStep.1.players[0]?).map Player.points =
      some ((mkP 0).points +
        specAward (((getAnsweredPlayers gPlay).length : Int) + 1) gPlay.time) :=
  (claim1_amended gPlay 0 (mkP 0) 0 gPlayStep.1 gPlayStep.2 (by decide) (by decide)
    (by decide) (by decide)).1 (by decide)

/-! ## C10 — repeat answers keep scoring -/

/-- An `ite` of two `some`s is `some`. -/
lemma isSome_ite_some {α : Type} {c : Prop} [Decidable c] {a b : α} :
    (if c then some a else some b).isSome = true := by
  by_cases h : c
  · rw [if_pos h]; rfl
  · rw [if_neg h]; rfl

/-- C10 amended: handling an answer never gates on the answered flag (or the
game state): a player whose flag is already true and who submits a correct
choice is awarded `getPointsReward` again, and whenever the remaining
countdown is nonnegative the award is positive, so the cumulative total
strictly grows on each repeat. -/
theorem claim10_amended :
    ∀ (g : Game) (i : Nat) (pl : Player) (choice : Int),
      g.players[i]? = some pl → pl.answered = true →
      isCorrectChoice g choice = some true → 0 ≤ g.time →
      ∃ (g' : Game) (s : List (Nat × Packet)),
        onPlayerAnswer g choice i = some (g', s) ∧
        (g'.players[i]?).map Player.points = some (pl.points + getPointsReward g) ∧
        pl.points < pl.points + getPointsReward g := by
  intro g i pl choice hpl hans hcc htime
  have hval : getPointsReward g =
      5000 - 1000 * min 4 ((getAnsweredPlayers g).length : Int) + g.time * 16 := by
    simp [getPointsReward]
  have hpos : 0 < getPointsReward g := by
    rw [hval]
    omega
  have hsome : ∃ r, onPlayerAnswer g choice i = some r := by
    rw [← Option.isSome_iff_exists]
    simp only [onPlayerAnswer, hpl, hcc]
    exact isSome_ite_some
  obtain ⟨r, hr⟩ := hsome
  have hr2 : onPlayerAnswer g choice i = some (r.1, r.2) := by rw [hr]
  have hres := onPlayerAnswer_result hpl hcc hr2
  refine ⟨r.1, r.2, hr2, ?_, by omega⟩
  rw [hres]
  simp

/-- A Play-state game whose first player already answered and holds 100
points. -/
def pC10 : Player := { mkP 0 with answered := true, points := 100 }

/-- The game for the C10 witness. -/
def gC10 : Game := { gPlay with players := [pC10, mkP 1] }

/-- C10 witness: in `gC10` (30 seconds left), the already-answered player
re-submits the correct choice and the total strictly increases. -/
theorem claim10_witness : (100 : Int) < 100 + getPointsReward gC10 := by
  obtain ⟨g', s, -, -, hlt⟩ :=
    claim10_amended gC10 0 pC10 0 (by decide) (by decide) (by decide) (by decide)
  simpa using hlt
